import Mathlib

/-!
Verification of the agentic tool-call orchestration core of the
`lmstudio-internet-wrapper` server: the JSON action extractor
(`parseMultipleJSONObjects` in `src/server.ts`), the stream normalizer
(`streamLMStudio`), the orchestration loop (`chatWithTools`), the retry and
circuit-breaker resilience primitives (`src/utils/error-handler.ts`), the MCP
parameter validator (`src/mcp/server.ts`), and the sandbox path resolver
(`src/sandbox.ts`).

The TypeScript is embedded shallowly: JSON values are an inductive type with a
total (fuel-indexed) recursive-descent parser standing in for `JSON.parse`;
asynchronous code is modelled as pure state passing, with the model backend
abstracted as an oracle from conversation to stream outcome; tool executors are
functions into `Except`; invocations of a tool's `run` are recorded in an
explicit trace so that "the executor runs" is observable.

Model restrictions (noted where they matter): JSON numbers are modelled as
integers (fraction/exponent forms are outside the model; no claim depends on
non-integer numbers), and JavaScript's property-key coercion of non-string
values is modelled as a failed registry lookup (registered tool names are
plain identifiers).
-/

/-- JSON value, as produced by `JSON.parse`. Object fields keep source order;
duplicate keys resolve to the last occurrence, as in JavaScript. -/
inductive Json where
  | null
  | bool (b : Bool)
  | num (n : Int)
  | str (s : List Char)
  | arr (elems : List Json)
  | obj (fields : List (List Char × Json))

/-- Whitespace accepted between JSON tokens (space, tab, newline, carriage
return), as in the JSON grammar. -/
def isWsChar (c : Char) : Bool :=
  c = ' ' || c = '\t' || c = '\n' || c = '\r'

/-- Drop leading JSON whitespace. -/
def skipWs : List Char → List Char
  | [] => []
  | c :: rest => if isWsChar c then skipWs rest else c :: rest

/-- Value of a hexadecimal digit, for `\uXXXX` escapes. -/
def hexDigitVal (c : Char) : Option Nat :=
  if '0' ≤ c ∧ c ≤ '9' then some (c.toNat - '0'.toNat)
  else if 'a' ≤ c ∧ c ≤ 'f' then some (c.toNat - 'a'.toNat + 10)
  else if 'A' ≤ c ∧ c ≤ 'F' then some (c.toNat - 'A'.toNat + 10)
  else none

/-- Parse the body of a JSON string literal (after the opening quote), up to
and including the closing quote; returns the decoded characters and the rest
of the input. Handles the escapes of the JSON grammar. -/
def parseStringBody : Nat → List Char → Option (List Char × List Char)
  | 0, _ => none
  | _ + 1, [] => none
  | fuel + 1, c :: rest =>
    if c = '"' then some ([], rest)
    else if c = '\\' then
      match rest with
      | [] => none
      | e :: rest2 =>
        let esc? : Option (Char × List Char) :=
          if e = '"' then some ('"', rest2)
          else if e = '\\' then some ('\\', rest2)
          else if e = '/' then some ('/', rest2)
          else if e = 'b' then some ('\x08', rest2)
          else if e = 'f' then some ('\x0c', rest2)
          else if e = 'n' then some ('\n', rest2)
          else if e = 'r' then some ('\r', rest2)
          else if e = 't' then some ('\t', rest2)
          else if e = 'u' then
            match rest2 with
            | h1 :: h2 :: h3 :: h4 :: rest3 =>
              match hexDigitVal h1, hexDigitVal h2, hexDigitVal h3, hexDigitVal h4 with
              | some a, some b, some c2, some d =>
                some (Char.ofNat (a * 4096 + b * 256 + c2 * 16 + d), rest3)
              | _, _, _, _ => none
            | _ => none
          else none
        match esc? with
        | some (ch, r) =>
          match parseStringBody fuel r with
          | some (s, r2) => some (ch :: s, r2)
          | none => none
        | none => none
    else
      match parseStringBody fuel rest with
      | some (s, r2) => some (c :: s, r2)
      | none => none

/-- Consume a maximal run of decimal digits, requiring at least one. -/
def parseDigits : Nat → List Char → Nat → Option (Nat × List Char)
  | 0, _, _ => none
  | _ + 1, [], acc => some (acc, [])
  | fuel + 1, c :: rest, acc =>
    if '0' ≤ c ∧ c ≤ '9' then
      match parseDigits fuel rest (acc * 10 + (c.toNat - '0'.toNat)) with
      | some r => some r
      | none => some (acc * 10 + (c.toNat - '0'.toNat), rest)
    else some (acc, c :: rest)

/-- Parse a JSON number as an integer (optional minus sign then digits).
Fraction and exponent forms are outside this model. -/
def parseNumber (cs : List Char) : Option (Int × List Char) :=
  match cs with
  | '-' :: d :: rest =>
    if '0' ≤ d ∧ d ≤ '9' then
      match parseDigits (rest.length + 1) rest (d.toNat - '0'.toNat) with
      | some (n, r) => some (-(n : Int), r)
      | none => none
    else none
  | d :: rest =>
    if '0' ≤ d ∧ d ≤ '9' then
      match parseDigits (rest.length + 1) rest (d.toNat - '0'.toNat) with
      | some (n, r) => some ((n : Int), r)
      | none => none
    else none
  | [] => none

/-- Check that `lit` is a prefix of `cs`; on success return the rest. -/
def stripLit : List Char → List Char → Option (List Char)
  | [], cs => some cs
  | _ :: _, [] => none
  | l :: ls, c :: cs => if l = c then stripLit ls cs else none

mutual

/-- Recursive-descent JSON value parser (fuel-indexed for totality); returns
the value and the unconsumed rest of the input. -/
def parseValue : Nat → List Char → Option (Json × List Char)
  | 0, _ => none
  | fuel + 1, cs =>
    match skipWs cs with
    | [] => none
    | c :: rest =>
      if c = 'n' then
        match stripLit "ull".data rest with
        | some r => some (Json.null, r)
        | none => none
      else if c = 't' then
        match stripLit "rue".data rest with
        | some r => some (Json.bool true, r)
        | none => none
      else if c = 'f' then
        match stripLit "alse".data rest with
        | some r => some (Json.bool false, r)
        | none => none
      else if c = '"' then
        match parseStringBody (rest.length + 1) rest with
        | some (s, r) => some (Json.str s, r)
        | none => none
      else if c = '[' then parseElems fuel rest
      else if c = '{' then parseFields fuel rest
      else
        match parseNumber (c :: rest) with
        | some (n, r) => some (Json.num n, r)
        | none => none

/-- Parse the elements of a JSON array (after the opening bracket). -/
def parseElems : Nat → List Char → Option (Json × List Char)
  | 0, _ => none
  | fuel + 1, cs =>
    match skipWs cs with
    | ']' :: rest => some (Json.arr [], rest)
    | cs' =>
      match parseValue fuel cs' with
      | some (j, r) => parseElemsTail fuel [j] r
      | none => none

/-- Parse `, value` continuations of a JSON array, then the closing bracket.
The accumulator holds the elements parsed so far, in reverse. -/
def parseElemsTail : Nat → List Json → List Char → Option (Json × List Char)
  | 0, _, _ => none
  | fuel + 1, acc, cs =>
    match skipWs cs with
    | ']' :: rest => some (Json.arr acc.reverse, rest)
    | ',' :: rest =>
      match parseValue fuel rest with
      | some (j, r) => parseElemsTail fuel (j :: acc) r
      | none => none
    | _ => none

/-- Parse the members of a JSON object (after the opening brace). -/
def parseFields : Nat → List Char → Option (Json × List Char)
  | 0, _ => none
  | fuel + 1, cs =>
    match skipWs cs with
    | '}' :: rest => some (Json.obj [], rest)
    | '"' :: rest =>
      match parseStringBody (rest.length + 1) rest with
      | some (k, r) =>
        match skipWs r with
        | ':' :: r2 =>
          match parseValue fuel r2 with
          | some (v, r3) => parseFieldsTail fuel [(k, v)] r3
          | none => none
        | _ => none
      | none => none
    | _ => none

/-- Parse `, "key": value` continuations of a JSON object, then the closing
brace. The accumulator holds the members parsed so far, in reverse. -/
def parseFieldsTail : Nat → List (List Char × Json) → List Char → Option (Json × List Char)
  | 0, _, _ => none
  | fuel + 1, acc, cs =>
    match skipWs cs with
    | '}' :: rest => some (Json.obj acc.reverse, rest)
    | ',' :: rest =>
      match skipWs rest with
      | '"' :: r =>
        match parseStringBody (r.length + 1) r with
        | some (k, r2) =>
          match skipWs r2 with
          | ':' :: r3 =>
            match parseValue fuel r3 with
            | some (v, r4) => parseFieldsTail fuel ((k, v) :: acc) r4
            | none => none
          | _ => none
        | none => none
      | _ => none
    | _ => none

end

/-- Model of `JSON.parse`: parse the whole input as one JSON value, allowing
surrounding whitespace; fail if anything else remains. The fuel
`2 * length + 4` dominates the recursion depth (at most two fuel steps are
spent per consumed character). -/
def jsonParse (cs : List Char) : Option Json :=
  match parseValue (2 * cs.length + 4) cs with
  | some (j, rest) =>
    match skipWs rest with
    | [] => some j
    | _ :: _ => none
  | none => none

/-- JavaScript truthiness of a parsed JSON value (`null`, `false`, `0` and the
empty string are falsy; arrays and objects are always truthy). -/
def Json.truthy : Json → Bool
  | .null => false
  | .bool b => b
  | .num n => n != 0
  | .str s => !s.isEmpty
  | .arr _ => true
  | .obj _ => true

/-- Last binding of a key in an object's member list (JavaScript keeps the
last duplicate). -/
def lookupLast (fields : List (List Char × Json)) (k : List Char) : Option Json :=
  match fields with
  | [] => none
  | (key, v) :: rest =>
    match lookupLast rest k with
    | some r => some r
    | none => if key = k then some v else none

/-- Property access `j.k`: a binding on objects, `undefined` (here `none`)
on every other value. -/
def Json.getField (j : Json) (k : List Char) : Option Json :=
  match j with
  | .obj fields => lookupLast fields k
  | _ => none

/-- Truthiness of `j.k`, where an absent field (`undefined`) is falsy. -/
def fieldTruthy (j : Json) (k : List Char) : Bool :=
  match j.getField k with
  | some v => v.truthy
  | none => false

/-- The characters of the key `action`. -/
def actionKey : List Char := "action".data

/-- The characters of the key `params`. -/
def paramsKey : List Char := "params".data

/-- The guard `json.action && json.params` used by the extractor. -/
def hasActionParams (j : Json) : Bool :=
  fieldTruthy j actionKey && fieldTruthy j paramsKey

/-!
Action extractor: `parseMultipleJSONObjects` (src/server.ts, lines 186-233).
The source first tries to parse the whole buffer as one JSON object with
truthy `action` and `params`; otherwise it scans character by character with
an open-brace counter, and whenever the counter returns to zero it slices the
span from the brace that opened it (`startIndex`) through the current brace
and tries to parse that span.  Here the scanner carries the span's characters
(in reverse) instead of the start index; the slice it parses is identical.
-/

/-- One extracted candidate span is accepted when it parses as JSON with
truthy `action` and `params`; invalid JSON is silently skipped. -/
def acceptSpan (s : List Char) (results : List Json) : List Json :=
  match jsonParse s with
  | some j => if hasActionParams j then j :: results else results
  | none => results

/-- The brace-counting scan of `parseMultipleJSONObjects`.  `braceCount` is
the running open-brace counter (a JavaScript number, so it may go negative);
`span` is `some` of the reversed characters seen since the `{` that opened
the current candidate (the source tracks `startIndex` and slices instead);
`results` accumulates accepted objects in reverse. -/
def scanLoop : List Char → Int → Option (List Char) → List Json → List Json
  | [], _, _, results => results.reverse
  | c :: rest, braceCount, span, results =>
    if c = '{' then
      scanLoop rest (braceCount + 1)
        (if braceCount = 0 then some [c] else span.map (fun s => c :: s)) results
    else if c = '}' then
      match span with
      | some s =>
        if braceCount - 1 = 0 then
          scanLoop rest (braceCount - 1) none (acceptSpan (c :: s).reverse results)
        else scanLoop rest (braceCount - 1) (some (c :: s)) results
      | none => scanLoop rest (braceCount - 1) none results
    else
      scanLoop rest braceCount (span.map (fun s => c :: s)) results

/-- Model of `parseMultipleJSONObjects` (src/server.ts): parse the whole text
as a single action object if possible, otherwise run the brace-counting scan
over the text. -/
def parseMultipleJSONObjects (text : List Char) : List Json :=
  match jsonParse text with
  | some j => if hasActionParams j then [j] else scanLoop text 0 none []
  | none => scanLoop text 0 none []

/-- Contribution of one character to the scanner's open-brace counter. -/
def braceDelta (c : Char) : Int :=
  if c = '{' then 1 else if c = '}' then -1 else 0

/-- Narration with no brace characters at all — text that cannot disturb the
brace counter. -/
def braceFree (cs : List Char) : Bool :=
  cs.all (fun c => !(c == '{' || c == '}'))

/-- Depth profile inside a candidate span that currently stands at depth
`d`: the depth must stay positive before every further character and return
to zero exactly at the end. -/
def spanOKAux : Int → List Char → Bool
  | d, [] => d == 0
  | d, c :: rest => decide (0 < d) && spanOKAux (d + braceDelta c) rest

/-- A string the brace scanner recognizes as one complete candidate span:
it opens with `{`, the counter stays positive strictly inside, and returns
to zero exactly at the final character (so in particular no brace appears
inside its string literals). -/
def spanOK (s : List Char) : Bool :=
  match s with
  | [] => false
  | c :: rest => c == '{' && spanOKAux 1 rest

/-- A buffer assembled from leading narration and then, for each segment,
one action-object substring followed by trailing narration. -/
def renderSegs (n0 : List Char) (segs : List (List Char × Json × List Char)) :
    List Char :=
  n0 ++ (segs.map (fun x => x.1 ++ x.2.2)).flatten


/-!
Sandbox path resolver (src/sandbox.ts).  `resolveInSandbox` resolves the
input against the sandbox root with Node's `path.resolve` and accepts the
result exactly when it string-starts with the root.  `path.resolve` is
modelled for POSIX paths with an absolute root (the source guarantees
`SANDBOX_ROOT` is absolute): join, then normalize `.` and `..` segments.
-/

/-- Split a path into segments at `/` separators. -/
def splitSlash : List Char → List Char → List (List Char)
  | [], acc => [acc.reverse]
  | c :: rest, acc =>
    if c = '/' then acc.reverse :: splitSlash rest [] else splitSlash rest (c :: acc)

/-- Normalization step of `path.resolve` on an absolute path: drop empty and
`.` segments, let `..` pop the previous segment (or vanish at the root). -/
def normParts : List (List Char) → List (List Char) → List (List Char)
  | acc, [] => acc.reverse
  | acc, part :: rest =>
    if part = [] ∨ part = ['.'] then normParts acc rest
    else if part = ['.', '.'] then normParts (acc.drop 1) rest
    else normParts (part :: acc) rest

/-- Join segments with `/`. -/
def joinSlash : List (List Char) → List Char
  | [] => []
  | [p] => p
  | p :: rest => p ++ '/' :: joinSlash rest

/-- Node `path.resolve(root, p)` for POSIX paths with `root` absolute: `p`
wins if absolute, otherwise it is joined under `root`; the result is
normalized and rooted at `/`. -/
def pathResolve (root p : List Char) : List Char :=
  let combined := if p.head? = some '/' then p else root ++ '/' :: p
  '/' :: joinSlash (normParts [] (splitSlash combined []))

/-- Model of `resolveInSandbox` (src/sandbox.ts): resolve, then accept iff the
resolved path string-starts with the sandbox root, else throw
"Path escapes sandbox". -/
def resolveInSandbox (root p : List Char) : Except String (List Char) :=
  let target := pathResolve root p
  if root.isPrefixOf target then Except.ok target else Except.error "Path escapes sandbox"

/-- Directory containment, the spec's intended sandbox property: the resolved
path is the root itself or lies below the root directory. -/
def insideDir (root target : List Char) : Bool :=
  target == root || (root ++ ['/']).isPrefixOf target

/-!
Resilience primitives (src/utils/error-handler.ts): the error taxonomy,
`withRetry` and the circuit breaker.  `withRetry` is modelled over an
attempt-indexed operation; besides the result it reports how many times the
operation was invoked and which backoff delays were slept, so that "never
retried" and "no backoff delay consumed" are statable.
-/

/-- Error classes of src/utils/error-handler.ts (`RetryError`,
`ConnectionError`, `ValidationError`, `ToolExecutionError`, plain `Error`).
`retryError` keeps the original error and the attempt/maxRetries fields used
by `formatUserError`. -/
inductive AppError where
  | retryError (original : AppError) (attempt : Nat) (maxRetries : Nat)
  | connectionError (message service : String)
  | validationError (message : String)
  | toolExecutionError (message toolName : String)
  | other (message : String)

/-- User-facing rendering of an error (`formatUserError`, development
configuration: a plain error shows its message). -/
def formatUserError : AppError → String
  | .retryError _ attempt maxR =>
    "Service temporarily unavailable. Please try again in a few moments. (Attempted " ++
      toString attempt ++ "/" ++ toString maxR ++ ")"
  | .connectionError _ service =>
    "Unable to connect to " ++ service ++ ". Please check if the service is running."
  | .validationError msg => "Invalid input: " ++ msg
  | .toolExecutionError msg tool => "Tool \"" ++ tool ++ "\" failed: " ++ msg
  | .other msg => msg

/-- Options of `withRetry`. -/
structure RetryOptions where
  maxRetries : Nat
  baseDelay : Nat
  maxDelay : Nat
  backoffMultiplier : Nat

/-- The retry policy used for tool execution inside the orchestration loop
(2 retries, 500ms base, 2000ms cap, multiplier 2). -/
def toolExecutionRetryOptions : RetryOptions := ⟨2, 500, 2000, 2⟩

/-- Backoff delay slept after the failure of `attempt` (numbered from 1):
`min (baseDelay * backoffMultiplier ^ (attempt - 1)) maxDelay`. -/
def retryDelay (o : RetryOptions) (attempt : Nat) : Nat :=
  min (o.baseDelay * o.backoffMultiplier ^ (attempt - 1)) o.maxDelay

/-- What a `withRetry` call did: its result, how many times the operation was
invoked, and the backoff delays slept between attempts. -/
structure RetryOutcome (α : Type) where
  result : Except AppError α
  attempts : Nat
  delays : List Nat

/-- The attempt loop of `withRetry`: `remaining` counts the attempts still
allowed (including the current one), `attempt` is the current attempt number.
On the last allowed attempt a failure becomes a `RetryError` wrapping the
original error; earlier failures sleep the backoff delay and retry.  The
source retries every caught error unconditionally. -/
def withRetryGo (o : RetryOptions) (op : Nat → Except AppError α) :
    Nat → Nat → RetryOutcome α
  | 0, attempt => ⟨Except.error (AppError.other "unreachable"), attempt - 1, []⟩
  | remaining + 1, attempt =>
    match op attempt with
    | .ok v => ⟨.ok v, attempt, []⟩
    | .error e =>
      if remaining = 0 then
        ⟨.error (.retryError e (attempt - 1) o.maxRetries), attempt, []⟩
      else
        let r := withRetryGo o op remaining (attempt + 1)
        ⟨r.result, r.attempts, retryDelay o attempt :: r.delays⟩

/-- Model of `withRetry` (src/utils/error-handler.ts): attempts
`1 .. maxRetries + 1`. -/
def withRetry (op : Nat → Except AppError α) (o : RetryOptions) : RetryOutcome α :=
  withRetryGo o op (o.maxRetries + 1) 1

/-- Circuit breaker states, as the source's string union. -/
inductive CBState where
  | CLOSED
  | OPEN
  | HALF_OPEN
deriving DecidableEq

/-- Circuit breaker state (class `CircuitBreaker`): mutable fields plus
constructor parameters.  `resetTimeout` is a constructor parameter the
implementation never reads. -/
structure CircuitBreaker where
  failures : Nat
  lastFailureTime : Nat
  state : CBState
  threshold : Nat
  timeout : Nat
  resetTimeout : Nat

/-- A fresh breaker (`failures = 0`, `lastFailureTime = 0`, CLOSED). -/
def CircuitBreaker.mk0 (threshold timeout resetTimeout : Nat) : CircuitBreaker :=
  ⟨0, 0, .CLOSED, threshold, timeout, resetTimeout⟩

/-- `onSuccess`: reset the failure count and close. -/
def CircuitBreaker.onSuccess (b : CircuitBreaker) : CircuitBreaker :=
  { b with failures := 0, state := .CLOSED }

/-- `onFailure`: count the failure, stamp the time, open once the count
reaches the threshold. -/
def CircuitBreaker.onFailure (b : CircuitBreaker) (now : Nat) : CircuitBreaker :=
  let f := b.failures + 1
  { b with failures := f, lastFailureTime := now,
           state := if b.threshold ≤ f then .OPEN else b.state }

/-- Outcome of `CircuitBreaker.execute`: either the fast-fail throw (the
wrapped operation was never invoked) or the operation's own result. -/
inductive CBOutcome (ε α : Type) where
  | fastFail
  | result (r : Except ε α)

/-- Run the wrapped operation and apply the success/failure bookkeeping. -/
def CircuitBreaker.runOp (b : CircuitBreaker) (now : Nat) (op : Except ε α) :
    CBOutcome ε α × CircuitBreaker :=
  match op with
  | .ok v => (.result (.ok v), b.onSuccess)
  | .error e => (.result (.error e), b.onFailure now)

/-- Model of `CircuitBreaker.execute` at time `now`, with the wrapped
operation's outcome given as `op` (the operation is deterministic within one
call).  While OPEN: fail fast inside the cooldown window, otherwise move to
HALF_OPEN and probe. -/
def CircuitBreaker.execute (b : CircuitBreaker) (now : Nat) (op : Except ε α) :
    CBOutcome ε α × CircuitBreaker :=
  if b.state = .OPEN then
    if b.timeout < now - b.lastFailureTime then
      CircuitBreaker.runOp { b with state := .HALF_OPEN } now op
    else (.fastFail, b)
  else CircuitBreaker.runOp b now op

/-- Fold a sequence of failing calls (given their times) through the
breaker. -/
def CircuitBreaker.execFailures (b : CircuitBreaker) : List Nat → CircuitBreaker
  | [] => b
  | t :: rest =>
    CircuitBreaker.execFailures
      ((CircuitBreaker.execute b t (Except.error "fail" : Except String Unit)).2) rest

/-!
MCP parameter validation and dispatch (src/mcp/server.ts,
`MCPServer.validateToolParameters` and `MCPServer.handleToolCall`).
-/

/-- A declared parameter in a tool's input schema: its name and, when the
schema object carries a `type` field, that declared type string. -/
structure MCPToolSchema where
  properties : List (String × Option String)
  required : List String

/-- An MCP tool descriptor. -/
structure MCPTool where
  name : String
  description : String
  inputSchema : MCPToolSchema

/-- JavaScript `typeof` on a parsed JSON value (`typeof null` is
`"object"`, and arrays are `"object"` too). -/
def jsTypeOf : Json → String
  | .str _ => "string"
  | .num _ => "number"
  | .bool _ => "boolean"
  | _ => "object"

/-- JavaScript `Array.isArray` on a parsed JSON value. -/
def jsIsArray : Json → Bool
  | .arr _ => true
  | _ => false

/-- The required-parameter pass of `validateToolParameters`: every name in
`required` must be a key of `params`. -/
def checkRequired (params : List (String × Json)) : List String → Except String Unit
  | [] => .ok ()
  | r :: rest =>
    if params.any (fun p => p.1 == r) then checkRequired params rest
    else .error ("Missing required parameter: " ++ r)

/-- Type check of one present parameter against its declared type, as the
source's chain of `if (expectedType === ... && typeof value !== ...)`
throws. A parameter whose schema entry has no `type` field passes. -/
def checkParamType (key : String) (declared : Option String) (value : Json) :
    Except String Unit :=
  match declared with
  | none => .ok ()
  | some expected =>
    if expected == "string" && !(jsTypeOf value == "string") then
      .error ("Parameter '" ++ key ++ "' must be a string")
    else if expected == "number" && !(jsTypeOf value == "number") then
      .error ("Parameter '" ++ key ++ "' must be a number")
    else if expected == "boolean" && !(jsTypeOf value == "boolean") then
      .error ("Parameter '" ++ key ++ "' must be a boolean")
    else if expected == "array" && !(jsIsArray value) then
      .error ("Parameter '" ++ key ++ "' must be an array")
    else if expected == "object" && (!(jsTypeOf value == "object") || jsIsArray value) then
      .error ("Parameter '" ++ key ++ "' must be an object")
    else .ok ()

/-- The per-entry pass of `validateToolParameters`: each supplied parameter
that is declared in `properties` must match its declared primitive type;
undeclared parameters pass. -/
def checkTypes (props : List (String × Option String)) :
    List (String × Json) → Except String Unit
  | [] => .ok ()
  | (key, value) :: rest =>
    match props.find? (fun q => q.1 == key) with
    | some (_, declared) =>
      match checkParamType key declared value with
      | .ok _ => checkTypes props rest
      | .error e => .error e
    | none => checkTypes props rest

/-- Model of `MCPServer.validateToolParameters`: required names first, then
primitive-type conformance of supplied parameters. -/
def validateToolParameters (tool : MCPTool) (params : List (String × Json)) :
    Except String Unit :=
  match checkRequired params tool.inputSchema.required with
  | .error e => .error e
  | .ok _ => checkTypes tool.inputSchema.properties params

/-- An MCP tool-call result (`{content: [{type: text, text}], isError}`). -/
structure MCPCallResult where
  text : String
  isError : Bool

/-- Model of `MCPServer.handleToolCall` for one established connection whose
catalog is `registry`: an unregistered name throws out of the handler;
validation failures and executor failures are caught into an
`isError` result.  The second component records whether the tool executor
(`toolRunner`) was invoked. -/
def handleToolCall (registry : List MCPTool) (name : String)
    (args : List (String × Json))
    (toolRunner : String → List (String × Json) → Except String String) :
    Except String MCPCallResult × Bool :=
  match registry.find? (fun t => t.name == name) with
  | none => (.error ("Tool '" ++ name ++ "' not found"), false)
  | some tool =>
    match validateToolParameters tool args with
    | .error msg => (.ok ⟨"Tool execution failed: " ++ msg, true⟩, false)
    | .ok _ =>
      match toolRunner name args with
      | .ok text => (.ok ⟨text, false⟩, true)
      | .error msg => (.ok ⟨"Tool execution failed: " ++ msg, true⟩, true)

/-!
Stream normalizer and orchestration loop (src/server.ts, `streamLMStudio`
and `chatWithTools`).  The upstream backend is abstracted as an oracle from
the merged conversation to an upstream outcome: either a failure of the
breaker-and-retry-wrapped fetch (surfaced by the generator's catch as one
`error` event) or the sequence of streamed content deltas, with a flag for
whether the terminal `data: [DONE]` frame arrived.  Tool executors are
deterministic functions into `Except`; each invocation of a tool's `run` is
recorded in an execution trace.
-/

/-- A conversation message. -/
structure ChatMessage where
  role : String
  content : String

/-- Normalized stream events (`LMStudioStreamChunk`): an `action` carries the
parsed JSON object the extractor accepted. -/
inductive StreamChunk where
  | done
  | chunk (data : String)
  | action (data : Json)
  | error (e : String)

/-- A registered tool (`type Tool` in src/server.ts): name, description,
parameter schema, executor. -/
structure Tool where
  name : String
  description : String
  schema : MCPToolSchema
  run : Json → Except AppError String

mutual

/-- Model of `JSON.stringify` on parsed JSON values (control characters
inside strings are not re-escaped; no claim depends on them). -/
def Json.render : Json → String
  | .null => "null"
  | .bool true => "true"
  | .bool false => "false"
  | .num n => toString n
  | .str s => "\"" ++ String.mk (escapeChars s) ++ "\""
  | .arr es => "[" ++ renderList es ++ "]"
  | .obj fs => "\x7b" ++ renderFields fs ++ "\x7d"

/-- Escape `"` and `\` in a rendered string body. -/
def escapeChars : List Char → List Char
  | [] => []
  | c :: rest =>
    if c = '"' then '\\' :: '"' :: escapeChars rest
    else if c = '\\' then '\\' :: '\\' :: escapeChars rest
    else c :: escapeChars rest

/-- Render array elements, comma separated. -/
def renderList : List Json → String
  | [] => ""
  | [j] => j.render
  | j :: rest => j.render ++ "," ++ renderList rest

/-- Render object members, comma separated. -/
def renderFields : List (List Char × Json) → String
  | [] => ""
  | [(k, v)] => "\"" ++ String.mk (escapeChars k) ++ "\":" ++ v.render
  | (k, v) :: rest =>
    "\"" ++ String.mk (escapeChars k) ++ "\":" ++ v.render ++ "," ++ renderFields rest

end

/-- JavaScript string coercion as used by template literals on an extracted
`action` value (`undefined` when the field is absent). -/
def jsDisplay : Option Json → String
  | none => "undefined"
  | some (.str s) => String.mk s
  | some (.num n) => toString n
  | some (.bool true) => "true"
  | some (.bool false) => "false"
  | some .null => "null"
  | some (.arr _) => ""
  | some (.obj _) => "[object Object]"

/-- Joined names of the registered tools, for the unknown-tool message. -/
def availableTools (tools : List Tool) : String :=
  String.intercalate ", " (tools.map (fun t => t.name))

/-- Registry lookup `tools[action]` for the extracted `action` value.
Property-key coercion of a non-string value cannot name a registered tool
(names are plain identifiers), so only string values can match. -/
def findTool (tools : List Tool) (actionVal : Option Json) : Option Tool :=
  match actionVal with
  | some (Json.str s) => tools.find? (fun t => t.name.data == s)
  | _ => none

/-- What one orchestration turn produced: the events yielded, the
conversation after the turn, whether a tool call was detected, and the trace
of tool-executor invocations. -/
structure TurnOut where
  events : List StreamChunk
  messages : List ChatMessage
  toolCallDetected : Bool
  execs : List (String × Json)

/-- The ceiling notice `chatWithTools` yields when the iteration budget is
exhausted: a `chunk`, not an `error`. -/
def maxIterationsWarning : StreamChunk :=
  .chunk "\n⚠️ **Maximum tool execution iterations reached**\n"

/-- Handling of the first extracted `action` of a turn in `chatWithTools`:
look the tool up, run it under the tool retry policy, yield the two result
chunks and append the two conversation messages on success; on executor
failure yield one `error` event (the source's catch block appends no
messages); on an unknown tool yield one `error` event.  In each case the
turn counts as a detected tool call. -/
def handleAction (tools : List Tool) (msgs : List ChatMessage) (j : Json) : TurnOut :=
  let actionVal := j.getField actionKey
  let params := (j.getField paramsKey).getD Json.null
  match findTool tools actionVal with
  | some t =>
    match (withRetry (fun _ => t.run params) toolExecutionRetryOptions).result with
    | .ok toolResult =>
      { events := [.chunk ("\n🔧 **Tool executed: " ++ t.name ++ "**\n"),
                   .chunk ("Result: " ++ toolResult ++ "\n\n")],
        messages := msgs ++
          [⟨"assistant", (Json.obj [(actionKey, actionVal.getD Json.null),
              (paramsKey, params)]).render⟩,
           ⟨"user", "Tool result: " ++ toolResult⟩],
        toolCallDetected := true,
        execs := [(t.name, params)] }
    | .error e =>
      { events := [.error (formatUserError e)], messages := msgs,
        toolCallDetected := true, execs := [(t.name, params)] }
  | none =>
    { events := [.error ("Unknown tool: " ++ jsDisplay actionVal ++
        ". Available tools: " ++ availableTools tools)],
      messages := msgs, toolCallDetected := true, execs := [] }

/-- One turn of the `for await` loop in `chatWithTools`: pass non-`action`
chunks through; at the first `action`, handle it and `break` (the rest of
the stream is abandoned). -/
def processTurn (tools : List Tool) (msgs : List ChatMessage) :
    List StreamChunk → TurnOut
  | [] => ⟨[], msgs, false, []⟩
  | StreamChunk.action j :: _ => handleAction tools msgs j
  | c :: rest =>
    let r := processTurn tools msgs rest
    ⟨c :: r.events, r.messages, r.toolCallDetected, r.execs⟩

/-- Upstream outcome of one `streamLMStudio` invocation: the wrapped fetch
failed (circuit breaker open, retries exhausted, no body), or the stream
delivered content deltas, with `gotDone` recording whether the terminal
`data: [DONE]` frame arrived before the connection closed. -/
inductive UpstreamResult where
  | connectError (e : AppError)
  | streamed (deltas : List (List Char)) (gotDone : Bool)

/-- Does the buffer survive `contentBuffer.trim()` as nonempty? -/
def hasNonWs (s : List Char) : Bool :=
  s.any (fun c => !isWsChar c)

/-- End-of-stream flush of `streamLMStudio`: on `[DONE]`, a nonempty
buffer is re-scanned, emitted as `action` events if the extractor finds
objects and as one plain `chunk` otherwise. -/
def flushBuffer (buffer : List Char) : List StreamChunk :=
  if hasNonWs buffer then
    match parseMultipleJSONObjects buffer with
    | [] => [.chunk (String.mk buffer)]
    | objs => objs.map StreamChunk.action
  else []

/-- The delta loop of `streamLMStudio`: append each nonempty delta to the
content buffer, run the extractor, emit every extracted object as an
`action` event and clear the buffer on success; on `[DONE]` flush and yield
`done`; if the connection closes without `[DONE]`, the generator just ends
(buffered content is dropped and no `done` is yielded). -/
def streamBody : List (List Char) → List Char → Bool → List StreamChunk
  | [], buffer, gotDone => if gotDone then flushBuffer buffer ++ [.done] else []
  | d :: rest, buffer, gotDone =>
    if d.isEmpty then streamBody rest buffer gotDone
    else
      match parseMultipleJSONObjects (buffer ++ d) with
      | [] => streamBody rest (buffer ++ d) gotDone
      | objs => objs.map StreamChunk.action ++ streamBody rest [] gotDone

/-- Model of `streamLMStudio` (src/server.ts): a failure of the
breaker-and-retry-wrapped upstream call yields a single `error` event
(the generator's catch); otherwise the delta loop runs. -/
def streamLMStudio : UpstreamResult → List StreamChunk
  | .connectError e => [.error (formatUserError e)]
  | .streamed deltas gotDone => streamBody deltas [] gotDone

/-- The system preamble of `chatWithTools` (`toolPrompt()`): its exact prose
is irrelevant to every claim, so only the tool list is rendered. -/
def toolPrompt (tools : List Tool) : String :=
  "You are a tool-using model with access to tools via MCP (Model Context Protocol)." ++
    String.intercalate "\n" (tools.map (fun t => "- " ++ t.name ++ ": " ++ t.description))

/-- The system message merged in front of the conversation on every turn. -/
def systemMessage (tools : List Tool) : ChatMessage :=
  ⟨"system", toolPrompt tools⟩

/-- One body of the `while` loop of `chatWithTools`: stream the model's
answer for the merged conversation and process the turn. -/
def chatStep (oracle : List ChatMessage → UpstreamResult) (tools : List Tool)
    (msgs : List ChatMessage) : TurnOut :=
  processTurn tools msgs (streamLMStudio (oracle (systemMessage tools :: msgs)))

/-- Model of `chatWithTools` (src/server.ts): the recursion parameter is the
remaining iteration budget (`maxIterations - iterations`); the while loop
body is one `processTurn` on the normalized stream for the merged
conversation; the loop continues with the updated conversation while a tool
call was detected, stops silently when none was, and yields the ceiling
warning chunk when the budget is exhausted.  Returns the emitted events and
the concatenated tool-executor invocation trace. -/
def chatWithTools (oracle : List ChatMessage → UpstreamResult) (tools : List Tool) :
    Nat → List ChatMessage → List StreamChunk × List (String × Json)
  | 0, _ => ([maxIterationsWarning], [])
  | n + 1, msgs =>
    if (chatStep oracle tools msgs).toolCallDetected then
      ((chatStep oracle tools msgs).events ++
        (chatWithTools oracle tools n (chatStep oracle tools msgs).messages).1,
       (chatStep oracle tools msgs).execs ++
        (chatWithTools oracle tools n (chatStep oracle tools msgs).messages).2)
    else ((chatStep oracle tools msgs).events, (chatStep oracle tools msgs).execs)

/-- Model of the `/call` endpoint (src/server.ts): after the body-shape
validation, the only gate before running the executor is that the action
names a registered tool; the second component records whether the executor
ran. -/
def callEndpoint (tools : List Tool) (action : String) (params : Json) :
    Except String String × Bool :=
  match tools.find? (fun t => t.name == action) with
  | none => (.error "Unknown tool", false)
  | some t =>
    match t.run params with
    | .ok r => (.ok r, true)
    | .error e => (.error (formatUserError e), true)

/-!
Concrete fixtures used by witnesses and counterexamples.
-/

/-- A tool that always succeeds. -/
def echoTool : Tool :=
  ⟨"echo", "echoes", ⟨[("text", some "string")], ["text"]⟩, fun _ => .ok "echoed"⟩

/-- A tool whose executor always fails. -/
def boomTool : Tool :=
  ⟨"boom", "always fails", ⟨[], []⟩,
    fun _ => .error (.toolExecutionError "disk on fire" "boom")⟩

/-- A tool with a schema-required `path` parameter. -/
def readFileTool : Tool :=
  ⟨"readFile", "reads a file", ⟨[("path", some "string")], ["path"]⟩,
    fun _ => .ok "contents"⟩

/-- The MCP descriptor carrying `readFileTool`'s schema. -/
def readFileMCPTool : MCPTool :=
  ⟨"readFile", "reads a file", ⟨[("path", some "string")], ["path"]⟩⟩

/-- An extracted invocation of `echo` with empty params. -/
def actionEcho : Json :=
  Json.obj [("action".data, Json.str "echo".data), ("params".data, Json.obj [])]

/-- An extracted invocation of `boom` with empty params. -/
def actionBoom : Json :=
  Json.obj [("action".data, Json.str "boom".data), ("params".data, Json.obj [])]

/-- An extracted invocation of `readFile` whose params omit the required
`path`. -/
def actionReadFileNoPath : Json :=
  Json.obj [("action".data, Json.str "readFile".data), ("params".data, Json.obj [])]

/-- A search tool. -/
def searchTool : Tool :=
  ⟨"search", "web search", ⟨[("query", some "string")], ["query"]⟩,
    fun _ => .ok "results"⟩

/-- A file-writing tool. -/
def writeFileTool : Tool :=
  ⟨"writeFile", "writes a file",
    ⟨[("path", some "string"), ("content", some "string")], ["path", "content"]⟩,
    fun _ => .ok "written"⟩

/-- The first of two back-to-back invocations in one model turn. -/
def actionSearch : Json :=
  Json.obj [("action".data, Json.str "search".data),
            ("params".data, Json.obj [("query".data, Json.str "cows".data)])]

/-- The second of two back-to-back invocations in one model turn. -/
def actionWriteFile : Json :=
  Json.obj [("action".data, Json.str "writeFile".data),
            ("params".data, Json.obj [("path".data, Json.str "cows.txt".data)])]

/-- The characters of the complete `search` action object. -/
def searchObjStr : List Char :=
  "\x7b\"action\":\"search\",\"params\":\x7b\"query\":\"cows\"\x7d\x7d".data

/-- The characters of the complete `writeFile` action object. -/
def writeFileObjStr : List Char :=
  "\x7b\"action\":\"writeFile\",\"params\":\x7b\"path\":\"cows.txt\"\x7d\x7d".data

/-- One streamed delta holding two complete action objects back-to-back. -/
def twoCallDelta : List Char := searchObjStr ++ writeFileObjStr

/-- An oracle whose every turn streams one complete `echo` action object and
the terminal `[DONE]` frame. -/
def alwaysToolOracle : List ChatMessage → UpstreamResult :=
  fun _ => .streamed ["\x7b\"action\":\"echo\",\"params\":\x7b\x7d\x7d".data] true

/-- An oracle whose upstream call always fails. -/
def failingOracle : List ChatMessage → UpstreamResult :=
  fun _ => .connectError (.connectionError "fetch failed" "LM Studio")

/-- An oracle that streams plain narration and then `[DONE]`. -/
def proseOracle : List ChatMessage → UpstreamResult :=
  fun _ => .streamed ["hello there".data] true

/-!
Shared helper lemmas.
-/

/-- Is a stream event an `action`? -/
def isAction : StreamChunk → Bool
  | .action _ => true
  | _ => false

theorem getLast?_append_some {α : Type} (l₁ : List α) {l₂ : List α} {x : α}
    (h : l₂.getLast? = some x) : (l₁ ++ l₂).getLast? = some x := by
  rw [← List.head?_reverse] at h ⊢
  rw [List.reverse_append]
  cases hr : l₂.reverse with
  | nil => rw [hr] at h; simp at h
  | cons a t =>
    rw [hr] at h
    simp only [List.head?_cons, Option.some.injEq] at h
    simp [h]

theorem processTurn_noAction (tools : List Tool) (msgs : List ChatMessage) :
    ∀ chunks : List StreamChunk, (∀ c ∈ chunks, isAction c = false) →
    processTurn tools msgs chunks = ⟨chunks, msgs, false, []⟩ := by
  intro chunks
  induction chunks with
  | nil => intro _; rfl
  | cons c rest ih =>
    intro h
    have hc : isAction c = false := h c (by simp)
    have hrest : ∀ c2 ∈ rest, isAction c2 = false := fun c2 hm => h c2 (by simp [hm])
    cases c with
    | action j => simp [isAction] at hc
    | done => simp [processTurn, ih hrest]
    | chunk d => simp [processTurn, ih hrest]
    | error e => simp [processTurn, ih hrest]

theorem handleAction_execs_le_one (tools : List Tool) (msgs : List ChatMessage)
    (j : Json) : (handleAction tools msgs j).execs.length ≤ 1 := by
  unfold handleAction
  cases hf : findTool tools (j.getField actionKey) with
  | none => simp [hf]
  | some t =>
    simp only [hf]
    cases hr : (withRetry (fun _ => t.run ((j.getField paramsKey).getD Json.null))
        toolExecutionRetryOptions).result with
    | ok v => simp [hr]
    | error e => simp [hr]

theorem processTurn_execs_le_one (tools : List Tool) (msgs : List ChatMessage) :
    ∀ chunks : List StreamChunk, (processTurn tools msgs chunks).execs.length ≤ 1 := by
  intro chunks
  induction chunks with
  | nil => simp [processTurn]
  | cons c rest ih =>
    cases c with
    | action j => simpa [processTurn] using handleAction_execs_le_one tools msgs j
    | done => simpa [processTurn] using ih
    | chunk d => simpa [processTurn] using ih
    | error e => simpa [processTurn] using ih

/-- One failing call through a CLOSED breaker: count the failure, stamp the
time, open iff the threshold is reached. -/
theorem execute_closed_fail (b : CircuitBreaker) (hs : b.state = .CLOSED) (t : Nat) :
    (b.execute t (Except.error "fail" : Except String Unit)).2 =
      { b with failures := b.failures + 1, lastFailureTime := t,
               state := if b.threshold ≤ b.failures + 1 then .OPEN else .CLOSED } := by
  simp [CircuitBreaker.execute, hs, CircuitBreaker.runOp, CircuitBreaker.onFailure]

/-- Consecutive failing calls from a CLOSED breaker open it exactly when the
failure count reaches the threshold. -/
theorem execFailures_opens : ∀ (times : List Nat) (b : CircuitBreaker),
    b.state = .CLOSED → b.failures + times.length = b.threshold → times ≠ [] →
    (b.execFailures times).state = .OPEN := by
  intro times
  induction times with
  | nil => intro b _ _ hne; exact absurd rfl hne
  | cons t rest ih =>
    intro b hs hlen _
    rw [CircuitBreaker.execFailures, execute_closed_fail b hs t]
    cases rest with
    | nil =>
      have hth : b.threshold ≤ b.failures + 1 := by
        simp only [List.length_cons, List.length_nil] at hlen; omega
      simp [CircuitBreaker.execFailures, hth]
    | cons t2 r2 =>
      have hlt : ¬ b.threshold ≤ b.failures + 1 := by
        simp only [List.length_cons] at hlen; omega
      apply ih
      · simp [hlt]
      · simp at hlen ⊢
        omega
      · simp

/-- C4: the circuit breaker is the {closed, open, half-open} machine the spec
describes: (a) N consecutive upstream failures from a fresh breaker
(N = threshold) leave it OPEN; (b) while OPEN and inside the cooldown window
every call fails fast, the wrapped operation is not invoked and the breaker
is unchanged; (c) once the cooldown has elapsed the single probe runs: its
success closes the breaker and resets the failure count, its failure (from
any reachable open state, where `threshold ≤ failures`) reopens it. -/
theorem circuitBreaker_lifecycle (threshold timeout resetTimeout : Nat)
    (ht : 0 < threshold) :
    (∀ times : List Nat, times.length = threshold →
      ((CircuitBreaker.mk0 threshold timeout resetTimeout).execFailures times).state =
        .OPEN) ∧
    (∀ (b : CircuitBreaker) (now : Nat) (op : Except String Unit),
      b.state = .OPEN → now - b.lastFailureTime ≤ b.timeout →
      b.execute now op = (.fastFail, b)) ∧
    (∀ (b : CircuitBreaker) (now : Nat),
      b.state = .OPEN → b.timeout < now - b.lastFailureTime →
      (b.execute now (Except.ok () : Except String Unit) =
        (.result (.ok ()), { b with failures := 0, state := .CLOSED })) ∧
      (∀ e : String, threshold ≤ b.failures → b.threshold = threshold →
        ((b.execute now (Except.error e : Except String Unit)).1 =
            .result (.error e)) ∧
        ((b.execute now (Except.error e : Except String Unit)).2).state = .OPEN)) := by
  refine ⟨?_, ?_, ?_⟩
  · intro times hlen
    exact execFailures_opens times _ rfl (by simp [CircuitBreaker.mk0, hlen]) (by
      intro hnil
      rw [hnil] at hlen
      simp at hlen
      omega)
  · intro b now op hs hcd
    have hnl : ¬ (b.timeout < now - b.lastFailureTime) := Nat.not_lt.mpr hcd
    simp [CircuitBreaker.execute, hs, hnl]
  · intro b now hs hl
    constructor
    · simp [CircuitBreaker.execute, hs, hl, CircuitBreaker.runOp,
        CircuitBreaker.onSuccess]
    · intro e hth hbth
      have hth1 : b.threshold ≤ b.failures + 1 := by omega
      constructor
      · simp [CircuitBreaker.execute, hs, hl, CircuitBreaker.runOp]
      · simp [CircuitBreaker.execute, hs, hl, CircuitBreaker.runOp,
          CircuitBreaker.onFailure, hth1]

/-- C4 witness: threshold 3 and failures at times 10, 20, 30 open the
breaker. -/
theorem circuitBreaker_lifecycle_witness :
    ((CircuitBreaker.mk0 3 60000 30000).execFailures [10, 20, 30]).state =
      CBState.OPEN :=
  (circuitBreaker_lifecycle 3 60000 30000 (by decide)).1 [10, 20, 30] (by decide)

/-- C8: whenever the resolved path does not remain string-prefixed by the
sandbox root, `resolveInSandbox` throws before any filesystem access; in
particular, `"../../etc/passwd"` against root `/sandbox` resolves to
`/etc/passwd` and is rejected. -/
theorem sandbox_rejects_escape :
    (∀ root p : List Char, List.isPrefixOf root (pathResolve root p) = false →
      resolveInSandbox root p = Except.error "Path escapes sandbox") ∧
    pathResolve "/sandbox".data "../../etc/passwd".data = "/etc/passwd".data ∧
    resolveInSandbox "/sandbox".data "../../etc/passwd".data =
      Except.error "Path escapes sandbox" := by
  refine ⟨?_, rfl, rfl⟩
  intro root p h
  unfold resolveInSandbox
  simp [h]

/-- C8 witness: the traversal input of the claim is rejected. -/
theorem sandbox_rejects_escape_witness :
    resolveInSandbox "/sandbox".data "../../etc/passwd".data =
      Except.error "Path escapes sandbox" :=
  sandbox_rejects_escape.1 "/sandbox".data "../../etc/passwd".data (by rfl)

/-- C9: the containment check is a plain string-prefix test: resolving
`../sandbox-evil/x` against root `/parent/sandbox` is accepted (the resolver
returns the path) although the result lies outside the root directory. -/
theorem sandbox_prefixTest_accepts_sibling :
    resolveInSandbox "/parent/sandbox".data "../sandbox-evil/x".data =
      Except.ok "/parent/sandbox-evil/x".data ∧
    insideDir "/parent/sandbox".data "/parent/sandbox-evil/x".data = false :=
  ⟨rfl, rfl⟩

/-- All-failing operations drive `withRetryGo` through every remaining
attempt, one backoff delay per non-final failure, ending in a `RetryError`
that wraps the last error. -/
theorem withRetryGo_allFail (o : RetryOptions) (op : Nat → Except AppError Unit)
    (errs : Nat → AppError) (h : ∀ k, op k = .error (errs k)) :
    ∀ remaining attempt : Nat, 0 < remaining →
    (withRetryGo o op remaining attempt).attempts = attempt + remaining - 1 ∧
    (withRetryGo o op remaining attempt).result =
      .error (.retryError (errs (attempt + remaining - 1)) (attempt + remaining - 2)
        o.maxRetries) ∧
    (withRetryGo o op remaining attempt).delays.length = remaining - 1 := by
  intro remaining
  induction remaining with
  | zero => intro attempt h0; omega
  | succ rem ih =>
    intro attempt _
    by_cases hrem : rem = 0
    · subst hrem
      have e1 : attempt + 1 - 1 = attempt := by omega
      have e2 : attempt + 1 - 2 = attempt - 1 := by omega
      refine ⟨?_, ?_, ?_⟩ <;> simp [withRetryGo, h, e1, e2]
    · have hpos : 0 < rem := Nat.pos_of_ne_zero hrem
      obtain ⟨ha, hr, hd⟩ := ih (attempt + 1) hpos
      have hstep : withRetryGo o op (rem + 1) attempt =
          ⟨(withRetryGo o op rem (attempt + 1)).result,
           (withRetryGo o op rem (attempt + 1)).attempts,
           retryDelay o attempt :: (withRetryGo o op rem (attempt + 1)).delays⟩ := by
        rw [withRetryGo, h attempt]
        simp [hrem]
      refine ⟨?_, ?_, ?_⟩
      · rw [hstep]
        show (withRetryGo o op rem (attempt + 1)).attempts = _
        rw [ha]; omega
      · rw [hstep]
        show (withRetryGo o op rem (attempt + 1)).result = _
        rw [hr]
        have e1 : attempt + 1 + rem - 1 = attempt + (rem + 1) - 1 := by omega
        have e2 : attempt + 1 + rem - 2 = attempt + (rem + 1) - 2 := by omega
        rw [e1, e2]
      · rw [hstep]
        show (retryDelay o attempt ::
          (withRetryGo o op rem (attempt + 1)).delays).length = _
        rw [List.length_cons, hd]; omega

/-- C10 (amended): `withRetry` classifies nothing — every failure, a
`ValidationError` included, is retried until the budget is exhausted: the
operation is invoked `maxRetries + 1` times, one backoff delay is slept per
retry, and the final report is a `RetryError` wrapping the last error. -/
theorem retry_retriesAllClasses (o : RetryOptions) (op : Nat → Except AppError Unit)
    (errs : Nat → AppError) (h : ∀ k, op k = .error (errs k)) :
    (withRetry op o).attempts = o.maxRetries + 1 ∧
    (withRetry op o).result =
      .error (.retryError (errs (o.maxRetries + 1)) o.maxRetries o.maxRetries) ∧
    (withRetry op o).delays.length = o.maxRetries := by
  obtain ⟨ha, hr, hd⟩ := withRetryGo_allFail o op errs h (o.maxRetries + 1) 1 (by omega)
  rw [withRetry]
  refine ⟨by rw [ha]; omega, ?_, by rw [hd]; omega⟩
  rw [hr]
  have e1 : 1 + (o.maxRetries + 1) - 1 = o.maxRetries + 1 := by omega
  have e2 : 1 + (o.maxRetries + 1) - 2 = o.maxRetries := by omega
  rw [e1, e2]

/-- C10 witness: an operation that always fails with a `ValidationError`
under the default policy (3 retries) is invoked four times. -/
theorem retry_retriesAllClasses_witness :
    (withRetry (fun _ => (Except.error (AppError.validationError "bad input") :
        Except AppError Unit)) ⟨3, 1000, 10000, 2⟩).attempts = (3 : Nat) + 1 ∧
    (withRetry (fun _ => (Except.error (AppError.validationError "bad input") :
        Except AppError Unit)) ⟨3, 1000, 10000, 2⟩).result =
      .error (.retryError (AppError.validationError "bad input") 3 3) ∧
    (withRetry (fun _ => (Except.error (AppError.validationError "bad input") :
        Except AppError Unit)) ⟨3, 1000, 10000, 2⟩).delays.length = 3 :=
  retry_retriesAllClasses ⟨3, 1000, 10000, 2⟩ _
    (fun _ => AppError.validationError "bad input") (fun _ => rfl)

/-- C10 counterexample: a `ValidationError` failure is retried — the claim
says it is reported immediately on the first attempt with no further
invocation and no backoff delay, but the operation is invoked four times and
three backoff delays are slept. -/
theorem retry_nonRetryable_cex :
    (withRetry (fun _ => (Except.error (AppError.validationError "bad input") :
        Except AppError Unit)) ⟨3, 1000, 10000, 2⟩).attempts = 4 ∧
    (withRetry (fun _ => (Except.error (AppError.validationError "bad input") :
        Except AppError Unit)) ⟨3, 1000, 10000, 2⟩).delays = [1000, 2000, 4000] :=
  ⟨rfl, rfl⟩

/-- C2: for every oracle (however adversarial) the loop executes at most M
tool calls, and when every turn requests a tool call the event stream ends
with the ceiling warning — a `chunk`, not an `error` (`maxIterationsWarning`
is a `chunk` by definition). Termination is inherent: the loop is structural
recursion on the budget. -/
theorem orchestration_ceiling :
    (∀ (oracle : List ChatMessage → UpstreamResult) (tools : List Tool) (M : Nat)
        (msgs : List ChatMessage),
      (chatWithTools oracle tools M msgs).2.length ≤ M) ∧
    (∀ (oracle : List ChatMessage → UpstreamResult) (tools : List Tool),
      (∀ msgs, (chatStep oracle tools msgs).toolCallDetected = true) →
      ∀ (M : Nat) (msgs : List ChatMessage),
        (chatWithTools oracle tools M msgs).1.getLast? = some maxIterationsWarning) := by
  constructor
  · intro oracle tools M
    induction M with
    | zero => intro msgs; simp [chatWithTools]
    | succ n ih =>
      intro msgs
      rw [chatWithTools]
      have h1 : (chatStep oracle tools msgs).execs.length ≤ 1 :=
        processTurn_execs_le_one tools msgs _
      by_cases hd : (chatStep oracle tools msgs).toolCallDetected = true
      · rw [if_pos hd]
        show ((chatStep oracle tools msgs).execs ++
          (chatWithTools oracle tools n (chatStep oracle tools msgs).messages).2).length ≤
            n + 1
        rw [List.length_append]
        have h2 := ih (chatStep oracle tools msgs).messages
        omega
      · rw [if_neg hd]
        show (chatStep oracle tools msgs).execs.length ≤ n + 1
        omega
  · intro oracle tools hdet M
    induction M with
    | zero => intro msgs; rfl
    | succ n ih =>
      intro msgs
      rw [chatWithTools, if_pos (hdet msgs)]
      exact getLast?_append_some _ (ih _)

/-- C2 witness: an oracle that always streams an `echo` tool call, budget 5:
the trace has at most five tool calls and the stream ends with the warning
chunk. -/
theorem orchestration_ceiling_witness :
    (chatWithTools alwaysToolOracle [echoTool] 5 []).1.getLast? =
      some maxIterationsWarning ∧
    (chatWithTools alwaysToolOracle [echoTool] 5 []).2.length ≤ 5 :=
  ⟨orchestration_ceiling.2 alwaysToolOracle [echoTool] (fun _ => rfl) 5 [],
   orchestration_ceiling.1 alwaysToolOracle [echoTool] 5 []⟩

/-- A `[DONE]`-terminated delta stream always ends in the `done` event. -/
theorem streamBody_getLast_done : ∀ (deltas : List (List Char)) (buffer : List Char),
    (streamBody deltas buffer true).getLast? = some StreamChunk.done := by
  intro deltas
  induction deltas with
  | nil =>
    intro buffer
    rw [streamBody, if_pos rfl]
    exact getLast?_append_some _ rfl
  | cons d rest ih =>
    intro buffer
    rw [streamBody]
    by_cases he : d.isEmpty = true
    · rw [if_pos he]; exact ih buffer
    · rw [if_neg he]
      cases hp : parseMultipleJSONObjects (buffer ++ d) with
      | nil => exact ih (buffer ++ d)
      | cons o os => exact getLast?_append_some _ (ih [])

/-- C7 (amended): the event sequence is always finite (the loop is a total
function into lists), and it is `done`-terminated exactly in the good case:
a turn that detects no action and whose upstream stream delivered the
`[DONE]` marker ends the stream with `done`; but a turn whose upstream call
failed ends the stream with that `error` event instead (no `done` follows). -/
theorem doneTermination :
    (∀ (oracle : List ChatMessage → UpstreamResult) (tools : List Tool)
        (msgs : List ChatMessage) (n : Nat) (deltas : List (List Char)),
      oracle (systemMessage tools :: msgs) = UpstreamResult.streamed deltas true →
      (∀ c ∈ streamBody deltas [] true, isAction c = false) →
      (chatWithTools oracle tools (n + 1) msgs).1.getLast? = some StreamChunk.done) ∧
    (∀ (oracle : List ChatMessage → UpstreamResult) (tools : List Tool)
        (msgs : List ChatMessage) (n : Nat) (e : AppError),
      oracle (systemMessage tools :: msgs) = UpstreamResult.connectError e →
      (chatWithTools oracle tools (n + 1) msgs).1.getLast? =
        some (StreamChunk.error (formatUserError e))) := by
  constructor
  · intro oracle tools msgs n deltas hor hna
    have hcs : chatStep oracle tools msgs = ⟨streamBody deltas [] true, msgs, false, []⟩ := by
      rw [chatStep, hor]
      exact processTurn_noAction tools msgs _ hna
    rw [chatWithTools]
    rw [hcs, if_neg (by simp)]
    exact streamBody_getLast_done deltas []
  · intro oracle tools msgs n e hor
    have hcs : chatStep oracle tools msgs =
        ⟨[StreamChunk.error (formatUserError e)], msgs, false, []⟩ := by
      rw [chatStep, hor]
      exact processTurn_noAction tools msgs _ (by
        intro c hc
        rw [show streamLMStudio (UpstreamResult.connectError e) =
            [StreamChunk.error (formatUserError e)] from rfl] at hc
        simp at hc
        subst hc
        rfl)
    rw [chatWithTools]
    rw [hcs, if_neg (by simp)]
    rfl

/-- C7 witness: a prose-only `[DONE]`-terminated turn ends with `done`. -/
theorem doneTermination_witness :
    (chatWithTools proseOracle [] 1 []).1.getLast? = some StreamChunk.done :=
  doneTermination.1 proseOracle [] [] 0 ["hello there".data] rfl (by
    intro c hc
    have hsb : streamBody ["hello there".data] [] true =
        [StreamChunk.chunk "hello there", StreamChunk.done] := rfl
    rw [hsb] at hc
    simp at hc
    rcases hc with rfl | rfl <;> rfl)

/-- C7 counterexample: when the (only) turn's upstream call fails, the
stream is the single `error` event — its last event is not `done`, so a run
in which every turn failed is not `done`-terminated as claimed. -/
theorem doneTermination_cex :
    (chatWithTools failingOracle [] 5 []).1 =
      [StreamChunk.error
        "Unable to connect to LM Studio. Please check if the service is running."] ∧
    (chatWithTools failingOracle [] 5 []).1.getLast? =
      some (StreamChunk.error
        "Unable to connect to LM Studio. Please check if the service is running.") :=
  ⟨rfl, rfl⟩

/-- C5 (amended): a successfully executed tool call appends exactly the two
messages before the next model call — the assistant message with the
stringified invocation and the user message `Tool result: …` — but a finally
failing execution and an unknown tool append nothing: the failure surfaces
only as a stream `error` event and the conversation is unchanged. -/
theorem toolResult_messages :
    (∀ (tools : List Tool) (msgs : List ChatMessage) (j : Json) (t : Tool)
        (result : String),
      findTool tools (j.getField actionKey) = some t →
      (withRetry (fun _ => t.run ((j.getField paramsKey).getD Json.null))
        toolExecutionRetryOptions).result = .ok result →
      (handleAction tools msgs j).messages = msgs ++
        [⟨"assistant", (Json.obj [(actionKey, (j.getField actionKey).getD Json.null),
            (paramsKey, (j.getField paramsKey).getD Json.null)]).render⟩,
         ⟨"user", "Tool result: " ++ result⟩]) ∧
    (∀ (tools : List Tool) (msgs : List ChatMessage) (j : Json) (t : Tool)
        (e : AppError),
      findTool tools (j.getField actionKey) = some t →
      (withRetry (fun _ => t.run ((j.getField paramsKey).getD Json.null))
        toolExecutionRetryOptions).result = .error e →
      (handleAction tools msgs j).messages = msgs) ∧
    (∀ (tools : List Tool) (msgs : List ChatMessage) (j : Json),
      findTool tools (j.getField actionKey) = none →
      (handleAction tools msgs j).messages = msgs) := by
  refine ⟨?_, ?_, ?_⟩
  · intro tools msgs j t result hf hr
    unfold handleAction
    simp only [hf, hr]
  · intro tools msgs j t e hf hr
    unfold handleAction
    simp only [hf, hr]
  · intro tools msgs j hf
    unfold handleAction
    simp only [hf]

/-- C5 witness: the successful `echo` call appends the two messages. -/
theorem toolResult_messages_witness :
    (handleAction [echoTool] [] actionEcho).messages = [] ++
      [⟨"assistant", (Json.obj [(actionKey, (actionEcho.getField actionKey).getD Json.null),
          (paramsKey, (actionEcho.getField paramsKey).getD Json.null)]).render⟩,
       ⟨"user", "Tool result: " ++ "echoed"⟩] :=
  toolResult_messages.1 [echoTool] [] actionEcho echoTool "echoed" rfl rfl

/-- C5 counterexample: a turn whose tool execution finally fails runs the
executor but appends zero messages (the claim requires exactly two whether
the execution succeeds or finally fails). -/
theorem toolResult_messages_cex :
    (processTurn [boomTool] [] [StreamChunk.action actionBoom]).execs =
      [("boom", Json.obj [])] ∧
    (processTurn [boomTool] [] [StreamChunk.action actionBoom]).messages = [] :=
  ⟨rfl, rfl⟩

/-- C3 (amended): only the MCP `tools/call` path guards the executor with
schema validation — it runs the runner only for a registered tool whose
arguments pass `validateToolParameters`; the orchestration loop runs a
registered tool's executor unconditionally (no parameter validation), and
the `/call` endpoint runs the executor exactly when the action is
registered. -/
theorem dispatch_validation_gates :
    (∀ (registry : List MCPTool) (name : String) (args : List (String × Json))
        (runner : String → List (String × Json) → Except String String),
      (handleToolCall registry name args runner).2 = true →
      ∃ tool, registry.find? (fun t => t.name == name) = some tool ∧
        validateToolParameters tool args = Except.ok ()) ∧
    (∀ (tools : List Tool) (msgs : List ChatMessage) (j : Json) (t : Tool),
      findTool tools (j.getField actionKey) = some t →
      (handleAction tools msgs j).execs =
        [(t.name, (j.getField paramsKey).getD Json.null)]) ∧
    (∀ (tools : List Tool) (action : String) (params : Json),
      (callEndpoint tools action params).2 = true ↔
        (tools.find? (fun t => t.name == action)).isSome) := by
  refine ⟨?_, ?_, ?_⟩
  · intro registry name args runner h
    cases hf : registry.find? (fun t => t.name == name) with
    | none =>
      have hfalse : (handleToolCall registry name args runner).2 = false := by
        unfold handleToolCall; simp [hf]
      rw [h] at hfalse
      exact absurd hfalse (by decide)
    | some tool =>
      cases hv : validateToolParameters tool args with
      | error msg =>
        have hfalse : (handleToolCall registry name args runner).2 = false := by
          unfold handleToolCall; simp [hf, hv]
        rw [h] at hfalse
        exact absurd hfalse (by decide)
      | ok u =>
        cases u
        exact ⟨tool, rfl, hv⟩
  · intro tools msgs j t hf
    unfold handleAction
    cases hr : (withRetry (fun _ => t.run ((j.getField paramsKey).getD Json.null))
        toolExecutionRetryOptions).result with
    | ok v => simp only [hf, hr]
    | error e => simp only [hf, hr]
  · intro tools action params
    unfold callEndpoint
    cases hf : tools.find? (fun t => t.name == action) with
    | none => simp
    | some t =>
      cases hr : t.run params with
      | ok v => simp [hr]
      | error e => simp [hr]

/-- C3 witness: a registered, schema-valid MCP call did run the executor, so
it was registered and validated. -/
theorem dispatch_validation_gates_witness :
    ∃ tool, [readFileMCPTool].find? (fun t => t.name == "readFile") = some tool ∧
      validateToolParameters tool [("path", Json.str "path.txt".data)] =
        Except.ok () :=
  dispatch_validation_gates.1 [readFileMCPTool] "readFile"
    [("path", Json.str "path.txt".data)] (fun _ _ => .ok "contents") rfl

/-- C3 counterexample: the orchestration loop dispatches `readFile` with
`params` missing the schema-required `path` and the executor runs anyway,
while the MCP validator rejects the same arguments — so dispatch is not
rejected before the executor on every invalid invocation. -/
theorem dispatch_validation_cex :
    (processTurn [readFileTool] [] [StreamChunk.action actionReadFileNoPath]).execs =
      [("readFile", Json.obj [])] ∧
    validateToolParameters readFileMCPTool [] =
      Except.error "Missing required parameter: path" :=
  ⟨rfl, rfl⟩

/-- C6 (amended): when one buffer holds several complete action objects the
normalizer emits one `action` event per object, in left-to-right order,
before `done`; but the orchestration loop executes only the first action of
the turn — the `break` after handling it abandons the rest of the stream,
so the later actions of the same turn are never executed. -/
theorem multiAction_order_firstOnly :
    (∀ (buffer : List Char) (objs : List Json),
      parseMultipleJSONObjects buffer = objs → objs ≠ [] →
      streamLMStudio (.streamed [buffer] true) =
        objs.map StreamChunk.action ++ [StreamChunk.done]) ∧
    (∀ (tools : List Tool) (msgs : List ChatMessage) (pre post : List StreamChunk)
        (j : Json),
      (∀ c ∈ pre, isAction c = false) →
      processTurn tools msgs (pre ++ StreamChunk.action j :: post) =
        ⟨pre ++ (handleAction tools msgs j).events, (handleAction tools msgs j).messages,
         (handleAction tools msgs j).toolCallDetected, (handleAction tools msgs j).execs⟩) := by
  constructor
  · intro buffer objs hp hne
    cases buffer with
    | nil => exact absurd (hp.symm.trans rfl) hne
    | cons c cs =>
      cases objs with
      | nil => exact absurd rfl hne
      | cons o os =>
        show streamBody [c :: cs] [] true = _
        rw [streamBody, if_neg (by simp), List.nil_append, hp]
        rfl
  · intro tools msgs pre post j h
    induction pre with
    | nil => rfl
    | cons c pre' ih =>
      have hc : isAction c = false := h c (by simp)
      have hrest : ∀ c2 ∈ pre', isAction c2 = false := fun c2 hm => h c2 (by simp [hm])
      cases c with
      | action j2 => simp [isAction] at hc
      | done => simp [processTurn, ih hrest]
      | chunk d => simp [processTurn, ih hrest]
      | error e => simp [processTurn, ih hrest]

set_option maxRecDepth 4000 in
/-- C6 witness: a buffer with `search` then `writeFile` back-to-back is
emitted as two `action` events in order, then `done`. -/
theorem multiAction_order_firstOnly_witness :
    streamLMStudio (.streamed [twoCallDelta] true) =
      [actionSearch, actionWriteFile].map StreamChunk.action ++ [StreamChunk.done] :=
  multiAction_order_firstOnly.1 twoCallDelta [actionSearch, actionWriteFile] rfl
    (by simp)

set_option maxRecDepth 4000 in
/-- C6 counterexample: both actions are extracted and emitted in order, yet
the loop's turn executes only the first (`search`); `writeFile` is never
dispatched, against the claim that all of them execute within the same
iteration. -/
theorem multiAction_firstOnly_cex :
    streamLMStudio (.streamed [twoCallDelta] true) =
      [StreamChunk.action actionSearch, StreamChunk.action actionWriteFile,
       StreamChunk.done] ∧
    (processTurn [searchTool, writeFileTool] []
      (streamLMStudio (.streamed [twoCallDelta] true))).execs =
      [("search", Json.obj [("query".data, Json.str "cows".data)])] :=
  ⟨rfl, rfl⟩

/-- Brace-free narration passes through the scanner at depth zero without
changing its state. -/
theorem scanLoop_skip (n : List Char) (hn : braceFree n = true) :
    ∀ (rest : List Char) (acc : List Json),
    scanLoop (n ++ rest) 0 none acc = scanLoop rest 0 none acc := by
  induction n with
  | nil => intro rest acc; rfl
  | cons c n' ih =>
    intro rest acc
    rw [braceFree, List.all_cons, Bool.and_eq_true] at hn
    obtain ⟨hhead, htail⟩ := hn
    have hc1 : ¬ c = '{' := by
      intro h; subst h; simp at hhead
    have hc2 : ¬ c = '}' := by
      intro h; subst h; simp at hhead
    rw [List.cons_append, scanLoop, if_neg hc1, if_neg hc2]
    simp only [Option.map_none']
    exact ih htail rest acc

/-- Inside an active span whose remaining characters keep the counter
positive until a final zero, the scanner consumes exactly those characters,
then submits the accumulated span (the opening brace through the closing
brace) to `acceptSpan` and resumes at depth zero with no active span. -/
theorem scanLoop_inSpan :
    ∀ (body : List Char) (d : Int) (sAcc : List Char) (rest : List Char)
      (acc : List Json),
    0 < d → spanOKAux d body = true →
    scanLoop (body ++ rest) d (some sAcc) acc =
      scanLoop rest 0 none (acceptSpan (sAcc.reverse ++ body) acc) := by
  intro body
  induction body with
  | nil =>
    intro d sAcc rest acc hd hok
    rw [spanOKAux] at hok
    simp at hok
    omega
  | cons c body' ih =>
    intro d sAcc rest acc hd hok
    rw [spanOKAux, Bool.and_eq_true] at hok
    obtain ⟨-, hok'⟩ := hok
    by_cases hc1 : c = '{'
    · subst hc1
      have hδ : d + braceDelta '{' = d + 1 := by rw [braceDelta, if_pos rfl]
      rw [hδ] at hok'
      have hdne : ¬ (d = 0) := by omega
      rw [List.cons_append, scanLoop, if_pos rfl, if_neg hdne]
      simp only [Option.map_some']
      rw [ih (d + 1) ('{' :: sAcc) rest acc (by omega) hok']
      simp [List.append_assoc]
    · by_cases hc2 : c = '}'
      · subst hc2
        have hδ : d + braceDelta '}' = d - 1 := by
          rw [braceDelta, if_neg (by decide : ¬('}' : Char) = '{'), if_pos rfl]
          ring
        rw [hδ] at hok'
        rw [List.cons_append, scanLoop, if_neg hc1, if_pos rfl]
        by_cases hd0 : d - 1 = 0
        · rw [if_pos hd0]
          cases body' with
          | nil =>
            rw [hd0]
            simp [List.reverse_cons]
          | cons x xs =>
            rw [hd0, spanOKAux] at hok'
            simp at hok'
        · rw [if_neg hd0]
          rw [ih (d - 1) ('}' :: sAcc) rest acc (by omega) hok']
          simp [List.append_assoc]
      · have hδ : d + braceDelta c = d := by
          rw [braceDelta, if_neg hc1, if_neg hc2]
          ring
        rw [hδ] at hok'
        rw [List.cons_append, scanLoop, if_neg hc1, if_neg hc2]
        simp only [Option.map_some']
        rw [ih d (c :: sAcc) rest acc hd hok']
        simp [List.append_assoc]

/-- At depth zero the scanner consumes one complete well-nested span that
parses as an action object and appends exactly that object to the results. -/
theorem scanLoop_object (s : List Char) (j : Json) (hs : spanOK s = true)
    (hp : jsonParse s = some j) (ha : hasActionParams j = true) :
    ∀ (rest : List Char) (acc : List Json),
    scanLoop (s ++ rest) 0 none acc = scanLoop rest 0 none (j :: acc) := by
  intro rest acc
  cases s with
  | nil => rw [spanOK] at hs; simp at hs
  | cons c body =>
    rw [spanOK, Bool.and_eq_true, beq_iff_eq] at hs
    obtain ⟨hc, hok⟩ := hs
    subst hc
    rw [List.cons_append, scanLoop, if_pos rfl, if_pos rfl]
    rw [show (0 : Int) + 1 = 1 from rfl]
    rw [scanLoop_inSpan body 1 ['{'] rest acc (by norm_num) hok]
    have : (['{'] : List Char).reverse ++ body = '{' :: body := rfl
    rw [this]
    rw [acceptSpan, hp]
    simp [ha]

/-- The scanner maps a narration/object interleaving to exactly the list of
embedded objects, in left-to-right order (results are accumulated in
reverse). -/
theorem scanLoop_segments :
    ∀ (segs : List (List Char × Json × List Char)) (n0 : List Char)
      (acc : List Json),
    braceFree n0 = true →
    (∀ x ∈ segs, spanOK x.1 = true ∧ jsonParse x.1 = some x.2.1 ∧
      hasActionParams x.2.1 = true ∧ braceFree x.2.2 = true) →
    scanLoop (renderSegs n0 segs) 0 none acc =
      acc.reverse ++ segs.map (fun x => x.2.1) := by
  intro segs
  induction segs with
  | nil =>
    intro n0 acc hn _
    show scanLoop (n0 ++ []) 0 none acc = acc.reverse ++ []
    rw [scanLoop_skip n0 hn [] acc, List.append_nil]
    rfl
  | cons x segs' ih =>
    intro n0 acc hn hsegs
    obtain ⟨hspan, hparse, hhas, hnfree⟩ := hsegs x (by simp)
    have hsegs' : ∀ y ∈ segs', spanOK y.1 = true ∧ jsonParse y.1 = some y.2.1 ∧
        hasActionParams y.2.1 = true ∧ braceFree y.2.2 = true :=
      fun y hy => hsegs y (by simp [hy])
    rw [renderSegs, List.map_cons, List.flatten_cons]
    rw [show x.1 ++ x.2.2 ++ (List.map (fun x => x.1 ++ x.2.2) segs').flatten =
        x.1 ++ (x.2.2 ++ (List.map (fun x => x.1 ++ x.2.2) segs').flatten) from by
      rw [List.append_assoc]]
    rw [← List.append_assoc n0]
    rw [show n0 ++ x.1 = n0 ++ x.1 from rfl]
    rw [List.append_assoc n0 x.1]
    rw [scanLoop_skip n0 hn]
    rw [scanLoop_object x.1 x.2.1 hspan hparse hhas]
    have hrec := ih x.2.2 (x.2.1 :: acc) hnfree hsegs'
    rw [renderSegs] at hrec
    rw [hrec]
    simp

/-- C1 (amended): over a buffer interleaving brace-free narration with
complete well-nested action-object substrings (no brace characters inside
their string literals — the scanner's documented limitation), and which is
not itself one parseable JSON value, `parseMultipleJSONObjects` returns
exactly one invocation per embedded substring, in left-to-right order.
(The unamended claim, for arbitrary narration, is refuted by
`extractor_missesObject_cex`: narration containing a brace shifts the
counter and a well-formed embedded object is missed.) -/
theorem extractor_segments (n0 : List Char)
    (segs : List (List Char × Json × List Char))
    (hn : braceFree n0 = true)
    (hsegs : ∀ x ∈ segs, spanOK x.1 = true ∧ jsonParse x.1 = some x.2.1 ∧
      hasActionParams x.2.1 = true ∧ braceFree x.2.2 = true)
    (hwhole : jsonParse (renderSegs n0 segs) = none) :
    parseMultipleJSONObjects (renderSegs n0 segs) =
      segs.map (fun x => x.2.1) := by
  unfold parseMultipleJSONObjects
  rw [hwhole]
  have h := scanLoop_segments segs n0 [] hn hsegs
  simpa using h

set_option maxRecDepth 8000 in
/-- C1 witness: narration around and between the `search` and `writeFile`
objects; the extractor returns exactly those two invocations in order. -/
theorem extractor_segments_witness :
    parseMultipleJSONObjects (renderSegs "Narration: ".data
      [(searchObjStr, actionSearch, " then ".data),
       (writeFileObjStr, actionWriteFile, [])]) =
      [actionSearch, actionWriteFile] :=
  extractor_segments "Narration: ".data
    [(searchObjStr, actionSearch, " then ".data),
     (writeFileObjStr, actionWriteFile, [])]
    rfl
    (by
      intro x hx
      simp only [List.mem_cons, List.not_mem_nil, or_false] at hx
      rcases hx with rfl | rfl
      · exact ⟨rfl, rfl, rfl, rfl⟩
      · exact ⟨rfl, rfl, rfl, rfl⟩)
    rfl

set_option maxRecDepth 8000 in
/-- C1 counterexample: the buffer `"} " ++ searchObjStr` embeds the
complete, well-formed `search` action object, yet the extractor returns no
invocation at all: the leading narration brace drives the counter negative
and the spans the scanner closes are not the object.  The claim demanded
exactly one invocation regardless of surrounding narration. -/
theorem extractor_missesObject_cex :
    parseMultipleJSONObjects ("\x7d ".data ++ searchObjStr) = [] ∧
    jsonParse searchObjStr = some actionSearch ∧
    hasActionParams actionSearch = true ∧
    spanOK searchObjStr = true :=
  ⟨rfl, rfl, rfl, rfl⟩
